import Mathlib

set_option maxRecDepth 8000

namespace LibScratch

/-! Shallow embedding of the libscratchcpp bytecode virtual machine
(src/src/engine/virtualmachine.cpp) and of the engine scheduler
(src/src/engine/internal/engine.cpp), restricted to the opcodes and
operations the verified claims exercise.  Opcodes outside the modelled
fragment, C++ undefined behaviour (e.g. `m_loops.back()` on an empty
vector) and out-of-range table lookups are mapped to an explicit error
result. -/

/-- A Scratch value as far as the VM fragment needs it: a number (here an
integer; the claims below only exercise integral values), or one of the
special values +∞, −∞, NaN.  Strings and non-integral doubles are outside
the modelled fragment (the Value class itself is not under src/). -/
inductive Value where
  | num (n : Int)
  | inf
  | negInf
  | nan
  deriving DecidableEq

/-- Opcode numbers are the indices into the computed-goto `dispatch_table`
of VirtualMachine::run (index 0 is the nullptr placeholder `OP_START`). -/
def OP_HALT : Nat := 1

def OP_CONST : Nat := 2

def OP_FOREVER_LOOP : Nat := 7

def OP_REPEAT_LOOP : Nat := 8

def OP_LOOP_END : Nat := 11

def OP_CHANGE_VAR : Nat := 37

def OP_BREAK_ATOMIC : Nat := 58

/-- Modelled from the spec: the static `instruction_arg_count` table lives in
a header that is not under src/.  Spec section 4.1 lists the opcodes that
carry one inline argument word: CONST (2), SET_VAR..LIST_CONTAINS (36..48),
EXEC (53), CALL_PROCEDURE (55), READ_ARG (57); all others carry none. -/
def instructionArgCount (op : Nat) : Nat :=
  if op = 2 ∨ (36 ≤ op ∧ op ≤ 48) ∨ op = 53 ∨ op = 55 ∨ op = 57 then 1 else 0

/-- The Loop record pushed on `m_loops` (fields set by do_forever_loop /
do_repeat_loop; `start` is the bytecode index of the loop opcode). -/
structure LoopRec where
  isRepeatLoop : Bool
  start : Nat
  index : Int
  max : Int
  deriving DecidableEq

/-- VirtualMachine state: the register stack (head = top, `regCount` is the
length), the variables table contents, the loop stack (head = back), the
procedure call stack of saved positions, and the `atEnd` / `atomic` flags. -/
structure VMState where
  regs : List Value
  vars : List Value
  loops : List LoopRec
  callTree : List Nat
  atEnd : Bool
  atomic : Bool
  deriving DecidableEq

/-- Result of executing one opcode: continue dispatching at the given
instruction index, return from run() with the given position, or an error
(C++ UB or an opcode outside the modelled fragment). -/
inductive StepResult where
  | next (s : VMState) (pc : Nat)
  | ret (s : VMState) (pc : Nat)
  | err (s : VMState)
  deriving DecidableEq

/-- Value::toLong restricted to the modelled fragment (numbers only). -/
def valueToLong : Value → Option Int
  | .num n => some n
  | _ => none

/-- Value::add restricted to the modelled fragment (number + number). -/
def valueAdd : Value → Value → Option Value
  | .num a, .num b => some (.num (a + b))
  | _, _ => none

/-- The forward scan of do_repeat_loop for a count ≤ 0:
`while (*loopEnd != OP_LOOP_END) loopEnd += instruction_arg_count[*loopEnd++];`
Starting at the position of the REPEAT_LOOP opcode itself, it advances past
whole instructions until the FIRST word equal to OP_LOOP_END; nesting is not
tracked.  Fuel bounds the scan; `code.length + 1` fuel always suffices for a
definite answer. -/
def scanLoopEnd (code : List Nat) : Nat → Nat → Option Nat
  | _, 0 => none
  | p, fuel + 1 =>
    match code[p]? with
    | none => none
    | some op =>
      if op = OP_LOOP_END then some p
      else scanLoopEnd code (p + 1 + instructionArgCount op) fuel

/-- One dispatch of VirtualMachine::run at instruction index `pc`.
Follows the labelled blocks of the computed-goto interpreter:
do_halt, do_const, do_forever_loop, do_repeat_loop, do_loop_end,
do_change_var, do_break_atomic.  A nonzero register count at do_halt only
prints a warning: the state is returned unchanged apart from `atEnd`. -/
def step (code : List Nat) (consts : List Value) (s : VMState) (pc : Nat) : StepResult :=
  match code[pc]? with
  | none => .err s
  | some op =>
    if op = OP_HALT then
      match s.callTree with
      | [] => .ret { s with atEnd := true } pc
      | r :: rest => .next { s with callTree := rest } (r + 1)
    else if op = OP_CONST then
      match code[pc + 1]? with
      | none => .err s
      | some k =>
        match consts[k]? with
        | none => .err s
        | some v =>
          if 1024 ≤ s.regs.length then .err s
          else .next { s with regs := v :: s.regs } (pc + 2)
    else if op = OP_FOREVER_LOOP then
      .next { s with loops := { isRepeatLoop := true, start := pc, index := -1, max := 0 } :: s.loops } (pc + 1)
    else if op = OP_REPEAT_LOOP then
      match s.regs with
      | [] => .err s
      | v :: rest =>
        match valueToLong v with
        | none => .err s
        | some n =>
          if n ≤ 0 then
            match scanLoopEnd code pc (code.length + 1) with
            | none => .err { s with regs := rest }
            | some q => .next { s with regs := rest } (q + 1)
          else
            .next { s with regs := rest, loops := { isRepeatLoop := true, start := pc, index := 0, max := n } :: s.loops } (pc + 1)
    else if op = OP_LOOP_END then
      match s.loops with
      | [] => .err s
      | l :: rest =>
        if l.isRepeatLoop then
          if l.index = -1 then
            if s.atomic then .next s (l.start + 1) else .ret s l.start
          else if l.index + 1 < l.max then
            let s2 := { s with loops := { l with index := l.index + 1 } :: rest }
            if s.atomic then .next s2 (l.start + 1) else .ret s2 l.start
          else
            let s2 := { s with loops := rest }
            if s.atomic then .next s2 (pc + 1) else .ret s2 pc
        else
          if s.atomic = false then .ret s (pc - 1)
          else .err s
    else if op = OP_CHANGE_VAR then
      match code[pc + 1]? with
      | none => .err s
      | some vi =>
        match s.regs with
        | [] => .err s
        | v :: rest =>
          match s.vars[vi]? with
          | none => .err s
          | some cur =>
            match valueAdd cur v with
            | none => .err s
            | some sum => .next { s with vars := s.vars.set vi sum, regs := rest } (pc + 2)
    else if op = OP_BREAK_ATOMIC then
      .next { s with atomic := false } (pc + 1)
    else .err s

/-- Result of a whole run() invocation. -/
inductive RunResult where
  | done (s : VMState) (pc : Nat)
  | failed (s : VMState)
  | outOfFuel (s : VMState) (pc : Nat)
  deriving DecidableEq

/-- Iterated dispatch with fuel. -/
def runFrom (code : List Nat) (consts : List Value) : Nat → VMState → Nat → RunResult
  | 0, s, pc => .outOfFuel s pc
  | fuel + 1, s, pc =>
    match step code consts s pc with
    | .next s2 pc2 => runFrom code consts fuel s2 pc2
    | .ret s2 p => .done s2 p
    | .err s2 => .failed s2

/-- VirtualMachine::run(): sets `atEnd := false`, `atomic := true` and
dispatches with `*++pos`, i.e. the first bytecode word (the OP_START
placeholder emitted by the compiler) is skipped and execution begins at
index 1. -/
def runVM (code : List Nat) (consts : List Value) (s : VMState) (fuel : Nat) : RunResult :=
  runFrom code consts fuel { s with atEnd := false, atomic := true } 1

/-! Standalone models of the TAN and ATAN opcode bodies (do_tan, do_atan).
The finite branches call std::tan / std::atan on a finite double and always
produce a finite double; the claims only distinguish the special values
from finite results, so the finite constructors record the operand. -/

/-- Result of the TAN opcode on a numeric operand. -/
inductive TanResult where
  | plusInf
  | minusInf
  | finiteTan (deg : Int)
  deriving DecidableEq

/-- do_tan on a (here: integral) numeric operand `n`:
`long mod = v->toLong() % 360;` using the C++ `%`, which truncates toward
zero (`Int.tmod`); then +∞ exactly when the remainder is 90, −∞ exactly
when it is 270, otherwise the finite `std::tan(v·π/180)`. -/
def tanOpcode (n : Int) : TanResult :=
  let m := Int.tmod n 360
  if m = 90 then .plusInf
  else if m = 270 then .minusInf
  else .finiteTan n

/-- Result of the ATAN opcode on a numeric operand. -/
inductive AtanResult where
  | nanRes
  | finiteDeg (q : ℚ)
  deriving DecidableEq

/-- do_atan on a numeric operand `q` (rationals stand for the finite
doubles the claims exercise): NaN when `v < -1 || v > 1`, otherwise the
finite `std::atan(v)·180/π`, recorded by its operand. -/
def atanOpcode (q : ℚ) : AtanResult :=
  if q < -1 ∨ q > 1 then .nanRes else .finiteDeg q

/-! Engine model (src/src/engine/internal/engine.cpp).  Targets, scripts
and threads are identified by numeric ids standing for the C++ object
identities (pointers).  Hat registration maps are immutable during the
operations modelled here and live in a separate `HatIndex` record. -/

/-- A compiled script together with the fields of its top-level hat block
(Engine::startHats reads `topBlock->findFieldById(id)->value()`). -/
structure ScriptM where
  sid : Nat
  fields : List (Nat × String)
  deriving DecidableEq

/-- A target as the engine sees it: the stage or a sprite, possibly a
clone (`cloneRoot = some r` mirrors `sprite->isClone()` with
`sprite->cloneSprite()` returning the root with id `r`). -/
structure TargetM where
  tid : Nat
  isStage : Bool
  cloneRoot : Option Nat
  layerOrder : Nat
  deriving DecidableEq

/-- A thread (a VM instance in `m_threads`).  `threadId` stands for the
shared_ptr identity, `finished` for `vm->atEnd()`.  A VM freshly created by
`Script::start` has not reached HALT, so `finished = false` (the
VirtualMachine header is not under src/; this initial value is modelled
from the spec's thread lifecycle). -/
structure ThreadM where
  threadId : Nat
  sid : Nat
  targetId : Nat
  finished : Bool
  deriving DecidableEq

/-- Engine::HatType. -/
inductive HatType where
  | greenFlag
  | broadcastReceived
  | backdropChanged
  | cloneInit
  | keyPressed
  deriving DecidableEq

/-- The static `Engine::m_hatRestartExistingThreads` table. -/
def hatRestartExistingThreads : HatType → Bool
  | .greenFlag => true
  | .broadcastReceived => true
  | .backdropChanged => true
  | .cloneInit => false
  | .keyPressed => false

/-- The per-hat-type maps `m_greenFlagHats`, ..., as association lists from
target id to the scripts registered for that target, in registration
order (Engine::addHatToMap appends). -/
structure HatIndex where
  greenFlagHats : List (Nat × List ScriptM)
  broadcastHats : List (Nat × List ScriptM)
  backdropChangeHats : List (Nat × List ScriptM)
  cloneInitHats : List (Nat × List ScriptM)
  whenKeyPressedHats : List (Nat × List ScriptM)

/-- Select the map for a hat type (the switch in Engine::getHats). -/
def hatsOf (h : HatIndex) : HatType → List (Nat × List ScriptM)
  | .greenFlag => h.greenFlagHats
  | .broadcastReceived => h.broadcastHats
  | .backdropChanged => h.backdropChangeHats
  | .cloneInit => h.cloneInitHats
  | .keyPressed => h.whenKeyPressedHats

/-- Association-list lookup (operator[] of the unordered_map, read-only:
a missing key yields the empty script list). -/
def lookupHats : List (Nat × List ScriptM) → Nat → List ScriptM
  | [], _ => []
  | p :: ps, t => if p.1 = t then p.2 else lookupHats ps t

/-- Engine::getHats: for a non-stage target that is a clone, hats are
looked up on the clone's root sprite. -/
def getHats (h : HatIndex) (t : TargetM) (ty : HatType) : List ScriptM :=
  let key :=
    if t.isStage then t.tid
    else match t.cloneRoot with
      | some r => r
      | none => t.tid
  lookupHats (hatsOf h ty) key

/-- The engine state touched by the modelled operations. -/
structure EngineSt where
  executableTargets : List TargetM
  threads : List ThreadM
  clones : List Nat
  cloneLimit : Int
  keyMap : List (String × Bool)
  nextThreadId : Nat
  deriving DecidableEq

/-- Engine::pushThread: `script->start(target)` creates a fresh VM bound to
(script, target) and Engine::addRunningScript appends it to `m_threads`. -/
def pushThread (e : EngineSt) (s : ScriptM) (t : TargetM) : EngineSt × ThreadM :=
  let th : ThreadM := { threadId := e.nextThreadId, sid := s.sid, targetId := t.tid, finished := false }
  ({ e with threads := e.threads ++ [th], nextThreadId := e.nextThreadId + 1 }, th)

/-- The search of the restart branch of Engine::startHats: the first thread
in `m_threads` with the given target and script. -/
def findMatch : List ThreadM → Nat → Nat → Option ThreadM
  | [], _, _ => none
  | th :: ths, tgt, sc =>
    if th.targetId = tgt ∧ th.sid = sc then some th else findMatch ths tgt sc

/-- The search of the no-restart branch: is some thread with the given
target and script still unfinished? -/
def anyUnfinishedMatch : List ThreadM → Nat → Nat → Bool
  | [], _, _ => false
  | th :: ths, tgt, sc =>
    if th.targetId = tgt ∧ th.sid = sc ∧ th.finished = false then true
    else anyUnfinishedMatch ths tgt sc

/-- `std::find(m_threads.begin(), m_threads.end(), thread)` by shared_ptr
identity: index of the first thread with the given id. -/
def findIdxById : List ThreadM → Nat → Option Nat
  | [], _ => none
  | th :: ths, i =>
    if th.threadId = i then some 0
    else Option.map (fun j => j + 1) (findIdxById ths i)

/-- Indexed assignment `m_threads[i] = newThread`. -/
def setAt : List ThreadM → Nat → ThreadM → List ThreadM
  | [], _, _ => []
  | _ :: ts, 0, nw => nw :: ts
  | t :: ts, j + 1, nw => t :: setAt ts j nw

/-- Engine::restartThread: build a replacement VM for the same (script,
target), find the old thread in `m_threads` and put the new one in its
slot; if the old thread is not in the list, append the OLD thread. -/
def restartThread (e : EngineSt) (old : ThreadM) : EngineSt × ThreadM :=
  let nw : ThreadM := { threadId := e.nextThreadId, sid := old.sid, targetId := old.targetId, finished := false }
  match findIdxById e.threads old.threadId with
  | some i => ({ e with threads := setAt e.threads i nw, nextThreadId := e.nextThreadId + 1 }, nw)
  | none => ({ e with threads := e.threads ++ [old], nextThreadId := e.nextThreadId + 1 }, old)

/-- The match-fields check of the startHats lambda: every requested
(fieldId, value) pair must equal the field on the script's top block. -/
def fieldsMatch (s : ScriptM) (matchFields : List (Nat × String)) : Bool :=
  matchFields.all fun p =>
    match s.fields.find? (fun f => f.1 == p.1) with
    | some f => f.2 == p.2
    | none => false

/-- The body of the startHats lambda for one visited (script, target):
check fields, then restart / skip / push according to the hat type's
restart policy. -/
def startHatsDo (ty : HatType) (matchFields : List (Nat × String))
    (acc : EngineSt × List ThreadM) (s : ScriptM) (t : TargetM) : EngineSt × List ThreadM :=
  let e := acc.1
  if fieldsMatch s matchFields = false then acc
  else if hatRestartExistingThreads ty then
    match findMatch e.threads t.tid s.sid with
    | some old =>
      let p := restartThread e old
      (p.1, acc.2 ++ [p.2])
    | none =>
      let p := pushThread e s t
      (p.1, acc.2 ++ [p.2])
  else
    if anyUnfinishedMatch e.threads t.tid s.sid then acc
    else
      let p := pushThread e s t
      (p.1, acc.2 ++ [p.2])

/-- Engine::allScriptsByOpcodeDo target selection: the single optTarget,
or the executable targets iterated from the last index down to 0. -/
def visitTargets (e : EngineSt) (optTarget : Option TargetM) : List TargetM :=
  match optTarget with
  | some t => [t]
  | none => e.executableTargets.reverse

/-- The (script, target) pairs visited by allScriptsByOpcodeDo, in visit
order: targets in reverse array order, scripts of each target in
registration order.  The target snapshot is taken before the callbacks run
and the callbacks only mutate threads, so the list is fixed up front. -/
def visitOrder (h : HatIndex) (e : EngineSt) (ty : HatType) (optTarget : Option TargetM) :
    List (ScriptM × TargetM) :=
  (visitTargets e optTarget).flatMap fun t => (getHats h t ty).map fun s => (s, t)

/-- Engine::startHats: run the lambda over the visit order, returning the
updated engine and the `newThreads` vector in creation order. -/
def startHats (h : HatIndex) (e : EngineSt) (ty : HatType)
    (matchFields : List (Nat × String)) (optTarget : Option TargetM) : EngineSt × List ThreadM :=
  (visitOrder h e ty optTarget).foldl (fun acc p => startHatsDo ty matchFields acc p.1 p.2) (e, [])

/-- `m_keyMap[name] = pressed` on the association list. -/
def setKeyMap : List (String × Bool) → String → Bool → List (String × Bool)
  | [], k, b => [(k, b)]
  | p :: ps, k, b => if p.1 = k then (k, b) :: ps else p :: setKeyMap ps k b

/-- Modelled from the spec: KeyEvent name resolution (keyevent.h is not
under src/); the spec's keyboard model keys the map directly by name, so
canonical key names map to themselves. -/
def keyEventName (k : String) : String := k

/-- Modelled from the spec: the numeric id of EventBlocks::Fields::KEY_OPTION
(eventblocks.h is not under src/); only its consistent use matters. -/
def keyOptionField : Nat := 0

/-- Engine::setKeyState(name, pressed): record the state in the key map,
then — whenever `pressed` is true, with no edge detection — start the
KeyPressed hats for the key's name and for "any". -/
def setKeyState (h : HatIndex) (e : EngineSt) (k : String) (pressed : Bool) : EngineSt :=
  let e1 := { e with keyMap := setKeyMap e.keyMap (keyEventName k) pressed }
  if pressed then
    let e2 := (startHats h e1 .keyPressed [(keyOptionField, keyEventName k)] none).1
    (startHats h e2 .keyPressed [(keyOptionField, "any")] none).1
  else e1

/-- Engine::initClone: reject null clones and clones past the limit
(`m_cloneLimit >= 0 && m_clones.size() >= m_cloneLimit`), reject a clone
without a root, otherwise FIRST start the CloneInit hats targeted at the
clone and only AFTERWARDS insert the clone into `m_clones` and append it
to the executable targets. -/
def initClone (h : HatIndex) (e : EngineSt) (clone : Option TargetM) : EngineSt :=
  match clone with
  | none => e
  | some c =>
    if 0 ≤ e.cloneLimit ∧ e.cloneLimit ≤ (e.clones.length : Int) then e
    else
      match c.cloneRoot with
      | none => e
      | some _ =>
        let e1 := (startHats h e .cloneInit [] (some c)).1
        { e1 with
          clones := e1.clones ++ [c.tid],
          executableTargets := e1.executableTargets ++ [c] }

/-- Engine::setCloneLimit: negative arguments are clamped to −1
(unlimited); the current clone count is not consulted. -/
def setCloneLimit (e : EngineSt) (limit : Int) : EngineSt :=
  { e with cloneLimit := if limit < 0 then -1 else limit }

/-- Engine::updateSpriteLayerOrder: `setLayerOrder(i)` on every entry from
index 1 up (index 0, the stage, is skipped). -/
def updateLayersFrom (i : Nat) : List TargetM → List TargetM
  | [] => []
  | t :: ts => (if i = 0 then t else { t with layerOrder := i }) :: updateLayersFrom (i + 1) ts

/-- Engine::updateSpriteLayerOrder on the whole executable-targets array. -/
def updateSpriteLayerOrder (ts : List TargetM) : List TargetM :=
  updateLayersFrom 0 ts

/-- Does every entry from index 1 up carry its array index as layerOrder? -/
def layersOkFrom (i : Nat) : List TargetM → Bool
  | [] => true
  | t :: ts => (decide (i = 0) || decide (t.layerOrder = i)) && layersOkFrom (i + 1) ts

/-- The layer-order consistency invariant of the claims. -/
def layersOk (ts : List TargetM) : Bool :=
  layersOkFrom 0 ts

/-- `std::find` over the executable targets by sprite identity (modelled
by target id). -/
def findTidIdx : List TargetM → Nat → Option Nat
  | [], _ => none
  | t :: ts, x =>
    if t.tid = x then some 0
    else Option.map (fun j => j + 1) (findTidIdx ts x)

/-- Engine::moveSpriteToFront: no-op when the array has ≤ 2 entries or the
sprite is absent; otherwise `std::rotate(it, it+1, end)` moves the sprite
to the back of the array (the front layer) and the layer orders are
re-established. -/
def moveSpriteToFront (e : EngineSt) (s : TargetM) : EngineSt :=
  if e.executableTargets.length ≤ 2 then e
  else
    let arr := e.executableTargets
    match findTidIdx arr s.tid with
    | none => e
    | some i =>
      match arr[i]? with
      | none => e
      | some x =>
        { e with executableTargets := updateSpriteLayerOrder (arr.take i ++ arr.drop (i + 1) ++ [x]) }

/-- Engine::moveSpriteToBack: no-op under the same guards; otherwise
`std::rotate(begin+1, it, it+1)` moves the sprite to index 1 (just above
the stage).  The `i = 0` case would be rotate with middle before first —
C++ UB, unreachable because the stage pointer is never passed — and is
modelled as a no-op. -/
def moveSpriteToBack (e : EngineSt) (s : TargetM) : EngineSt :=
  if e.executableTargets.length ≤ 2 then e
  else
    let arr := e.executableTargets
    match findTidIdx arr s.tid with
    | none => e
    | some i =>
      if i = 0 then e
      else
        match arr[i]? with
        | none => e
        | some x =>
          { e with
            executableTargets :=
              updateSpriteLayerOrder (arr.take 1 ++ [x] ++ (arr.take i).drop 1 ++ arr.drop (i + 1)) }

/-- The (target id, script id) pair identifying which (target, script) a
thread belongs to. -/
def threadSig (th : ThreadM) : Nat × Nat :=
  (th.targetId, th.sid)

/-- The (target id, script id) pair of a visited (script, target). -/
def visitSig (p : ScriptM × TargetM) : Nat × Nat :=
  (p.2.tid, p.1.sid)

/-! Concrete fixtures used by the per-claim scenarios and witnesses. -/

/-- The stage, pinned at index 0 of the executable targets. -/
def stage0 : TargetM :=
  { tid := 0, isStage := true, cloneRoot := none, layerOrder := 0 }

/-- An original sprite. -/
def sprA : TargetM :=
  { tid := 1, isStage := false, cloneRoot := none, layerOrder := 1 }

/-- A second original sprite. -/
def sprB : TargetM :=
  { tid := 2, isStage := false, cloneRoot := none, layerOrder := 2 }

/-- A green-flag script registered on sprA. -/
def scrA : ScriptM :=
  { sid := 10, fields := [] }

/-- A green-flag script registered on sprB. -/
def scrB : ScriptM :=
  { sid := 20, fields := [] }

/-- A CloneInit script registered on sprA (the clone root). -/
def scrClone : ScriptM :=
  { sid := 30, fields := [] }

/-- A KeyPressed script for key "a" registered on sprA. -/
def scrKey : ScriptM :=
  { sid := 40, fields := [(keyOptionField, "a")] }

/-- Hat index with green-flag scripts on sprA and sprB. -/
def hatsGF : HatIndex :=
  { greenFlagHats := [(1, [scrA]), (2, [scrB])], broadcastHats := [], backdropChangeHats := [],
    cloneInitHats := [], whenKeyPressedHats := [] }

/-- Hat index with a CloneInit script on sprA. -/
def hatsCI : HatIndex :=
  { greenFlagHats := [], broadcastHats := [], backdropChangeHats := [],
    cloneInitHats := [(1, [scrClone])], whenKeyPressedHats := [] }

/-- Hat index with a KeyPressed script on sprA. -/
def hatsKey : HatIndex :=
  { greenFlagHats := [], broadcastHats := [], backdropChangeHats := [],
    cloneInitHats := [], whenKeyPressedHats := [(1, [scrKey])] }

/-- A clone of sprA. -/
def cloneA : TargetM :=
  { tid := 5, isStage := false, cloneRoot := some 1, layerOrder := 1 }

/-- A second clone of sprA. -/
def cloneB : TargetM :=
  { tid := 6, isStage := false, cloneRoot := some 1, layerOrder := 1 }

/-- A third clone of sprA. -/
def cloneC : TargetM :=
  { tid := 7, isStage := false, cloneRoot := some 1, layerOrder := 1 }

/-- Engine with stage and two sprites, no threads. -/
def engGF : EngineSt :=
  { executableTargets := [stage0, sprA, sprB], threads := [], clones := [], cloneLimit := 300,
    keyMap := [], nextThreadId := 0 }

/-- Engine whose thread list holds a thread for sprA's script BEFORE one
for sprB's script (reachable e.g. when the targets were reordered after
the threads were pushed). -/
def engPre : EngineSt :=
  { executableTargets := [stage0, sprA, sprB],
    threads := [{ threadId := 50, sid := 10, targetId := 1, finished := false },
                { threadId := 51, sid := 20, targetId := 2, finished := false }],
    clones := [], cloneLimit := 300, keyMap := [], nextThreadId := 100 }

/-- Engine with stage and the clone root sprA, default clone limit. -/
def engClone : EngineSt :=
  { executableTargets := [stage0, sprA], threads := [], clones := [], cloneLimit := 300,
    keyMap := [], nextThreadId := 0 }

/-- Engine with stage and sprA and clone limit 2. -/
def engClone2 : EngineSt :=
  { executableTargets := [stage0, sprA], threads := [], clones := [], cloneLimit := 2,
    keyMap := [], nextThreadId := 0 }

/-- Engine for the keyboard scenarios. -/
def engKey : EngineSt :=
  { executableTargets := [stage0, sprA], threads := [], clones := [], cloneLimit := 300,
    keyMap := [], nextThreadId := 0 }

/-- Engine in which key "a" is already recorded pressed and the thread its
first press started has finished. -/
def engKeyPressed : EngineSt :=
  { executableTargets := [stage0, sprA],
    threads := [{ threadId := 0, sid := 40, targetId := 1, finished := true }],
    clones := [], cloneLimit := 300, keyMap := [("a", true)], nextThreadId := 1 }

/-- A sprite whose layerOrder (5) does not match its array index (1). -/
def spriteStale : TargetM :=
  { tid := 1, isStage := false, cloneRoot := none, layerOrder := 5 }

/-- Engine whose executable targets hold only the stage and one sprite
with a stale layerOrder. -/
def engTwo : EngineSt :=
  { executableTargets := [stage0, spriteStale], threads := [], clones := [], cloneLimit := 300,
    keyMap := [], nextThreadId := 0 }

end LibScratch

namespace LibScratch

/-! Helper lemmas. -/

theorem getElem_append_mid {α : Type _} (l1 : List α) (x : α) (l2 : List α) :
    (l1 ++ x :: l2)[l1.length]? = some x := by
  induction l1 with
  | nil => simp
  | cons a l ih => simpa using ih

theorem take_append_mid {α : Type _} (l1 : List α) (x : α) (l2 : List α) :
    (l1 ++ x :: l2).take l1.length = l1 := by
  induction l1 with
  | nil => rfl
  | cons a l ih => simpa using ih

theorem drop_append_mid {α : Type _} (l1 : List α) (x : α) (l2 : List α) :
    (l1 ++ x :: l2).drop (l1.length + 1) = l2 := by
  induction l1 with
  | nil => rfl
  | cons a l ih => simpa using ih

theorem findTidIdx_append_mid (l1 : List TargetM) (x : TargetM) (l2 : List TargetM) (k : Nat)
    (h1 : ∀ t ∈ l1, t.tid ≠ k) (hx : x.tid = k) :
    findTidIdx (l1 ++ x :: l2) k = some l1.length := by
  induction l1 with
  | nil => simp [findTidIdx, hx]
  | cons a l ih =>
    have ha : a.tid ≠ k := h1 a (by simp)
    have ih2 := ih (fun t ht => h1 t (by simp [ht]))
    simp [findTidIdx, ha, ih2]

theorem updateLayersFrom_append (l1 l2 : List TargetM) :
    ∀ i, updateLayersFrom i (l1 ++ l2) = updateLayersFrom i l1 ++ updateLayersFrom (i + l1.length) l2 := by
  induction l1 with
  | nil => intro i; simp [updateLayersFrom]
  | cons a l ih =>
    intro i
    have h2 : i + 1 + l.length = i + (l.length + 1) := by omega
    simp only [List.cons_append, updateLayersFrom, List.append_eq, ih (i + 1), List.length_cons, h2]

theorem updateLayersFrom_map_tid (l : List TargetM) :
    ∀ i, (updateLayersFrom i l).map (fun t => t.tid) = l.map (fun t => t.tid) := by
  induction l with
  | nil => intro i; rfl
  | cons a l ih =>
    intro i
    simp only [updateLayersFrom, List.map_cons, ih (i + 1)]
    congr 1
    by_cases h : i = 0 <;> simp [h]

theorem updateLayersFrom_length (l : List TargetM) :
    ∀ i, (updateLayersFrom i l).length = l.length := by
  induction l with
  | nil => intro i; rfl
  | cons a l ih => intro i; simp [updateLayersFrom, ih (i + 1)]

theorem updateLayersFrom_tid_ne (l : List TargetM) (k : Nat)
    (h : ∀ t ∈ l, t.tid ≠ k) :
    ∀ i, ∀ t ∈ updateLayersFrom i l, t.tid ≠ k := by
  induction l with
  | nil => intro i t ht; simp [updateLayersFrom] at ht
  | cons a l ih =>
    intro i t ht
    simp only [updateLayersFrom, List.mem_cons] at ht
    rcases ht with h1 | h2
    · subst h1
      have := h a (by simp)
      by_cases hi : i = 0 <;> simp_all
    · exact ih (fun u hu => h u (by simp [hu])) (i + 1) t h2

theorem findMatch_append_mid (l1 : List ThreadM) (old : ThreadM) (l2 : List ThreadM)
    (tgt sc : Nat) (h1 : ∀ th ∈ l1, ¬(th.targetId = tgt ∧ th.sid = sc))
    (ho : old.targetId = tgt ∧ old.sid = sc) :
    findMatch (l1 ++ old :: l2) tgt sc = some old := by
  induction l1 with
  | nil => simp [findMatch, ho]
  | cons a l ih =>
    have ha := h1 a (by simp)
    have ih2 := ih fun th ht => h1 th (by simp [ht])
    simp [findMatch, ha, ih2]

theorem findMatch_some (l : List ThreadM) (tgt sc : Nat) (th : ThreadM)
    (h : findMatch l tgt sc = some th) : th.targetId = tgt ∧ th.sid = sc := by
  induction l with
  | nil => simp [findMatch] at h
  | cons a l ih =>
    by_cases ha : a.targetId = tgt ∧ a.sid = sc
    · simp [findMatch, ha] at h
      subst h
      exact ha
    · simp [findMatch, ha] at h
      exact ih h

theorem findMatch_append_none (l1 l2 : List ThreadM) (tgt sc : Nat)
    (h1 : findMatch l1 tgt sc = none) (h2 : findMatch l2 tgt sc = none) :
    findMatch (l1 ++ l2) tgt sc = none := by
  induction l1 with
  | nil => simpa using h2
  | cons a l ih =>
    by_cases ha : a.targetId = tgt ∧ a.sid = sc
    · simp [findMatch, ha] at h1
    · simp [findMatch, ha] at h1 ⊢
      exact ih h1

theorem findMatch_singleton_none (th : ThreadM) (tgt sc : Nat)
    (h : ¬(th.targetId = tgt ∧ th.sid = sc)) : findMatch [th] tgt sc = none := by
  simp [findMatch, h]

theorem findMatch_none_anyUnfinished (l : List ThreadM) (tgt sc : Nat)
    (h : findMatch l tgt sc = none) : anyUnfinishedMatch l tgt sc = false := by
  induction l with
  | nil => rfl
  | cons a l ih =>
    by_cases ha : a.targetId = tgt ∧ a.sid = sc
    · simp [findMatch, ha] at h
    · have ha2 : ¬(a.targetId = tgt ∧ a.sid = sc ∧ a.finished = false) := by
        intro hc
        exact ha ⟨hc.1, hc.2.1⟩
      simp [findMatch, ha] at h
      simp [anyUnfinishedMatch, ha2, ih h]

theorem findIdxById_append_mid (l1 : List ThreadM) (old : ThreadM) (l2 : List ThreadM)
    (idv : Nat) (h1 : ∀ th ∈ l1, th.threadId ≠ idv) (ho : old.threadId = idv) :
    findIdxById (l1 ++ old :: l2) idv = some l1.length := by
  induction l1 with
  | nil => simp [findIdxById, ho]
  | cons a l ih =>
    have ha := h1 a (by simp)
    have ih2 := ih fun th ht => h1 th (by simp [ht])
    simp [findIdxById, ha, ih2]

theorem setAt_append_mid (l1 : List ThreadM) (old : ThreadM) (l2 : List ThreadM) (nw : ThreadM) :
    setAt (l1 ++ old :: l2) l1.length nw = l1 ++ nw :: l2 := by
  induction l1 with
  | nil => rfl
  | cons a l ih => simp [setAt, ih]

/-- startHatsDo never touches the clone set, the executable targets, the
clone limit or the key map (it only mutates threads and the id counter). -/
theorem startHatsDo_frame (ty : HatType) (mf : List (Nat × String))
    (acc : EngineSt × List ThreadM) (s : ScriptM) (t : TargetM) :
    (startHatsDo ty mf acc s t).1.clones = acc.1.clones ∧
    (startHatsDo ty mf acc s t).1.executableTargets = acc.1.executableTargets ∧
    (startHatsDo ty mf acc s t).1.cloneLimit = acc.1.cloneLimit ∧
    (startHatsDo ty mf acc s t).1.keyMap = acc.1.keyMap := by
  rcases acc with ⟨e, nws⟩
  unfold startHatsDo pushThread restartThread
  by_cases h1 : fieldsMatch s mf = false
  · simp [h1]
  · by_cases h2 : hatRestartExistingThreads ty
    · cases hm : findMatch e.threads t.tid s.sid with
      | some old =>
        cases hi : findIdxById e.threads old.threadId with
        | some i => simp [h1, h2, hm, hi]
        | none => simp [h1, h2, hm, hi]
      | none => simp [h1, h2, hm]
    · by_cases h3 : anyUnfinishedMatch e.threads t.tid s.sid
      · simp [h1, h2, h3]
      · simp [h1, h2, h3]

theorem startHats_foldl_frame (ty : HatType) (mf : List (Nat × String)) :
    ∀ (visits : List (ScriptM × TargetM)) (acc : EngineSt × List ThreadM),
      ((visits.foldl (fun a p => startHatsDo ty mf a p.1 p.2) acc).1.clones = acc.1.clones ∧
       (visits.foldl (fun a p => startHatsDo ty mf a p.1 p.2) acc).1.executableTargets = acc.1.executableTargets ∧
       (visits.foldl (fun a p => startHatsDo ty mf a p.1 p.2) acc).1.cloneLimit = acc.1.cloneLimit ∧
       (visits.foldl (fun a p => startHatsDo ty mf a p.1 p.2) acc).1.keyMap = acc.1.keyMap) := by
  intro visits
  induction visits with
  | nil => intro acc; simp
  | cons p rest ih =>
    intro acc
    have h1 := startHatsDo_frame ty mf acc p.1 p.2
    have h2 := ih (startHatsDo ty mf acc p.1 p.2)
    simp only [List.foldl_cons]
    exact ⟨h2.1.trans h1.1, h2.2.1.trans h1.2.1, h2.2.2.1.trans h1.2.2.1, h2.2.2.2.trans h1.2.2.2⟩

/-- Engine::startHats leaves everything but the thread list and the id
counter unchanged. -/
theorem startHats_frame (h : HatIndex) (e : EngineSt) (ty : HatType)
    (mf : List (Nat × String)) (ot : Option TargetM) :
    (startHats h e ty mf ot).1.clones = e.clones ∧
    (startHats h e ty mf ot).1.executableTargets = e.executableTargets ∧
    (startHats h e ty mf ot).1.cloneLimit = e.cloneLimit ∧
    (startHats h e ty mf ot).1.keyMap = e.keyMap := by
  exact startHats_foldl_frame ty mf (visitOrder h e ty ot) (e, [])

/-- Processing one visited (script, target) for which no thread matching
the (target, script) pair exists pushes exactly one fresh thread at the
end of the thread list, under either restart policy. -/
theorem startHatsDo_no_match_push (ty : HatType) (mf : List (Nat × String))
    (e : EngineSt) (acc : List ThreadM) (s : ScriptM) (t : TargetM)
    (hf : fieldsMatch s mf = true)
    (hn : findMatch e.threads t.tid s.sid = none) :
    startHatsDo ty mf (e, acc) s t =
      ({ e with
          threads := e.threads ++ [{ threadId := e.nextThreadId, sid := s.sid, targetId := t.tid, finished := false }],
          nextThreadId := e.nextThreadId + 1 },
       acc ++ [{ threadId := e.nextThreadId, sid := s.sid, targetId := t.tid, finished := false }]) := by
  have hu := findMatch_none_anyUnfinished e.threads t.tid s.sid hn
  have hf2 : ¬fieldsMatch s mf = false := by simp [hf]
  unfold startHatsDo pushThread
  by_cases h2 : hatRestartExistingThreads ty
  · simp [hf2, h2, hn]
  · simp [hf2, h2, hu]

/-- The accumulated fold of startHats over visits none of which (given
pairwise-distinct (target, script) signatures) has a pre-existing thread:
every visit appends one fresh thread, in visit order. -/
theorem startHats_foldl_append (ty : HatType) (mf : List (Nat × String)) :
    ∀ (visits : List (ScriptM × TargetM)) (e : EngineSt) (acc : List ThreadM),
      (∀ p ∈ visits, fieldsMatch p.1 mf = true) →
      (∀ p ∈ visits, findMatch e.threads p.2.tid p.1.sid = none) →
      (visits.map visitSig).Nodup →
      ∃ nws : List ThreadM,
        visits.foldl (fun a p => startHatsDo ty mf a p.1 p.2) (e, acc) =
          ({ e with threads := e.threads ++ nws, nextThreadId := e.nextThreadId + nws.length },
           acc ++ nws) ∧
        nws.map threadSig = visits.map visitSig := by
  intro visits
  induction visits with
  | nil =>
    intro e acc _ _ _
    exact ⟨[], by simp, by simp⟩
  | cons p rest ih =>
    intro e acc hf hn hd
    have hf0 := hf p (by simp)
    have hn0 := hn p (by simp)
    have hstep := startHatsDo_no_match_push ty mf e acc p.1 p.2 hf0 hn0
    set nw : ThreadM := { threadId := e.nextThreadId, sid := p.1.sid, targetId := p.2.tid, finished := false } with hnw
    have hd2 : (rest.map visitSig).Nodup := by
      simpa using hd.of_cons
    have hsig : visitSig p ∉ rest.map visitSig := by
      have := hd
      simp only [List.map_cons, List.nodup_cons] at this
      exact this.1
    have hn2 : ∀ q ∈ rest, findMatch (e.threads ++ [nw]) q.2.tid q.1.sid = none := by
      intro q hq
      apply findMatch_append_none
      · exact hn q (by simp [hq])
      · apply findMatch_singleton_none
        intro hc
        apply hsig
        have : visitSig q = visitSig p := by
          simp only [visitSig, hnw] at hc ⊢
          simp [← hc.1, ← hc.2]
        rw [← this]
        exact List.mem_map_of_mem visitSig hq
    have hf2 : ∀ q ∈ rest, fieldsMatch q.1 mf = true := fun q hq => hf q (by simp [hq])
    obtain ⟨nws, heq, hmap⟩ :=
      ih { e with threads := e.threads ++ [nw], nextThreadId := e.nextThreadId + 1 } (acc ++ [nw]) hf2 hn2 hd2
    refine ⟨nw :: nws, ?_, ?_⟩
    · rw [List.foldl_cons, hstep, heq]
      simp only [Prod.mk.injEq, EngineSt.mk.injEq]
      simp
      all_goals omega
    · simp only [List.map_cons, hmap, List.cons.injEq]
      simp [threadSig, visitSig, hnw]

theorem layersOkFrom_updateLayersFrom (l : List TargetM) :
    ∀ i, layersOkFrom i (updateLayersFrom i l) = true := by
  induction l with
  | nil => intro i; rfl
  | cons a l ih =>
    intro i
    rcases Nat.eq_zero_or_pos i with h | h
    · subst h
      simp [updateLayersFrom, layersOkFrom, ih 1]
    · have h0 : ¬i = 0 := by omega
      simp [updateLayersFrom, layersOkFrom, h0, ih (i + 1)]

theorem updateLayersFrom_cons_zero (t : TargetM) (ts : List TargetM) :
    updateLayersFrom 0 (t :: ts) = t :: updateLayersFrom 1 ts := by
  simp [updateLayersFrom]

theorem updateLayersFrom_cons_pos (t : TargetM) (ts : List TargetM) (i : Nat) (hi : i ≠ 0) :
    updateLayersFrom i (t :: ts) = { t with layerOrder := i } :: updateLayersFrom (i + 1) ts := by
  simp [updateLayersFrom, hi]

theorem updateLayersFrom_singleton (x : TargetM) (i : Nat) (hi : i ≠ 0) :
    updateLayersFrom i [x] = [{ x with layerOrder := i }] := by
  simp [updateLayersFrom, hi]

/-- Shape of Engine::moveSpriteToFront on a decomposed executable-target
array: the sprite is removed from its slot and appended at the back, then
the layer orders are renumbered. -/
theorem moveSpriteToFront_shape (e : EngineSt) (t0 : TargetM) (l1 l2 : List TargetM)
    (x s : TargetM)
    (he : e.executableTargets = t0 :: l1 ++ x :: l2)
    (hx : x.tid = s.tid) (h0 : t0.tid ≠ s.tid) (h1 : ∀ t ∈ l1, t.tid ≠ s.tid)
    (hlen : 3 ≤ e.executableTargets.length) :
    moveSpriteToFront e s =
      { e with executableTargets := updateLayersFrom 0 (t0 :: (l1 ++ l2 ++ [x])) } := by
  have he2 : e.executableTargets = (t0 :: l1) ++ x :: l2 := by rw [he]
  have hg : ¬e.executableTargets.length ≤ 2 := by omega
  have hall : ∀ t ∈ t0 :: l1, t.tid ≠ s.tid := by
    intro t ht
    rcases List.mem_cons.mp ht with h | h
    · subst h; exact h0
    · exact h1 t h
  have hfind : findTidIdx e.executableTargets s.tid = some (t0 :: l1).length := by
    rw [he2]
    exact findTidIdx_append_mid (t0 :: l1) x l2 s.tid hall hx
  have hget : e.executableTargets[(t0 :: l1).length]? = some x := by
    rw [he2]
    exact getElem_append_mid (t0 :: l1) x l2
  have htake : e.executableTargets.take (t0 :: l1).length = t0 :: l1 := by
    rw [he2]
    exact take_append_mid (t0 :: l1) x l2
  have hdrop : e.executableTargets.drop ((t0 :: l1).length + 1) = l2 := by
    rw [he2]
    exact drop_append_mid (t0 :: l1) x l2
  unfold moveSpriteToFront
  rw [if_neg hg]
  simp only [hfind, hget, htake, hdrop, updateSpriteLayerOrder]
  simp

/-- Shape of Engine::moveSpriteToBack on a decomposed executable-target
array: the sprite moves to index 1, directly above the stage, then the
layer orders are renumbered. -/
theorem moveSpriteToBack_shape (e : EngineSt) (t0 : TargetM) (l1 l2 : List TargetM)
    (x s : TargetM)
    (he : e.executableTargets = t0 :: l1 ++ x :: l2)
    (hx : x.tid = s.tid) (h0 : t0.tid ≠ s.tid) (h1 : ∀ t ∈ l1, t.tid ≠ s.tid)
    (hlen : 3 ≤ e.executableTargets.length) :
    moveSpriteToBack e s =
      { e with executableTargets := updateLayersFrom 0 (t0 :: x :: (l1 ++ l2)) } := by
  have he2 : e.executableTargets = (t0 :: l1) ++ x :: l2 := by rw [he]
  have hg : ¬e.executableTargets.length ≤ 2 := by omega
  have hall : ∀ t ∈ t0 :: l1, t.tid ≠ s.tid := by
    intro t ht
    rcases List.mem_cons.mp ht with h | h
    · subst h; exact h0
    · exact h1 t h
  have hfind : findTidIdx e.executableTargets s.tid = some (t0 :: l1).length := by
    rw [he2]
    exact findTidIdx_append_mid (t0 :: l1) x l2 s.tid hall hx
  have hi0 : ¬(t0 :: l1).length = 0 := by simp
  have hget : e.executableTargets[(t0 :: l1).length]? = some x := by
    rw [he2]
    exact getElem_append_mid (t0 :: l1) x l2
  have htake : e.executableTargets.take (t0 :: l1).length = t0 :: l1 := by
    rw [he2]
    exact take_append_mid (t0 :: l1) x l2
  have hdrop : e.executableTargets.drop ((t0 :: l1).length + 1) = l2 := by
    rw [he2]
    exact drop_append_mid (t0 :: l1) x l2
  have htake1 : e.executableTargets.take 1 = [t0] := by
    rw [he2]
    simp
  unfold moveSpriteToBack
  rw [if_neg hg]
  simp only [hfind, hi0, if_false, hget, htake, hdrop, htake1, updateSpriteLayerOrder]
  simp

/-- Every thread startHats creates for a single-target (optTarget) call
under a no-restart hat type is bound to that very target. -/
theorem startHatsDo_targetId (ty : HatType) (mf : List (Nat × String)) (c : TargetM)
    (hty : hatRestartExistingThreads ty = false)
    (acc : EngineSt × List ThreadM) (s : ScriptM)
    (hinv : ∀ th ∈ acc.2, th.targetId = c.tid) :
    ∀ th ∈ (startHatsDo ty mf acc s c).2, th.targetId = c.tid := by
  rcases acc with ⟨e, nws⟩
  unfold startHatsDo pushThread
  by_cases h1 : fieldsMatch s mf = false
  · rw [if_pos h1]
    exact hinv
  · rw [if_neg h1, if_neg (by simp [hty] : ¬hatRestartExistingThreads ty = true)]
    by_cases h3 : anyUnfinishedMatch e.threads c.tid s.sid = true
    · rw [if_pos h3]
      exact hinv
    · rw [if_neg h3]
      intro th ht
      rcases List.mem_append.mp ht with h | h
      · exact hinv th h
      · have hth : th = { threadId := e.nextThreadId, sid := s.sid, targetId := c.tid, finished := false } := by
          simpa using h
        subst hth
        rfl

/-- The restart branch of the startHats lambda: the first thread matching
(target, script) is replaced in place by a fresh VM for the same pair; the
fresh thread is recorded in newThreads. -/
theorem startHatsDo_restart_slot (ty : HatType) (mf : List (Nat × String)) (s : ScriptM)
    (t : TargetM) (e : EngineSt) (acc : List ThreadM) (l1 l2 : List ThreadM) (old : ThreadM)
    (hty : hatRestartExistingThreads ty = true)
    (hfm : fieldsMatch s mf = true)
    (he : e.threads = l1 ++ old :: l2)
    (hot : old.targetId = t.tid) (hos : old.sid = s.sid)
    (hl1 : ∀ th ∈ l1, ¬(th.targetId = t.tid ∧ th.sid = s.sid))
    (hid : ∀ th ∈ l1, th.threadId ≠ old.threadId) :
    startHatsDo ty mf (e, acc) s t =
      ({ e with
          threads := l1 ++ { threadId := e.nextThreadId, sid := old.sid, targetId := old.targetId, finished := false } :: l2,
          nextThreadId := e.nextThreadId + 1 },
       acc ++ [{ threadId := e.nextThreadId, sid := old.sid, targetId := old.targetId, finished := false }]) := by
  have hfm2 : ¬fieldsMatch s mf = false := by simp [hfm]
  have hfind : findMatch e.threads t.tid s.sid = some old := by
    rw [he]
    exact findMatch_append_mid l1 old l2 t.tid s.sid hl1 ⟨hot, hos⟩
  have hidx : findIdxById e.threads old.threadId = some l1.length := by
    rw [he]
    exact findIdxById_append_mid l1 old l2 old.threadId hid rfl
  have hset :
      setAt e.threads l1.length
          { threadId := e.nextThreadId, sid := old.sid, targetId := old.targetId, finished := false }
        = l1 ++ { threadId := e.nextThreadId, sid := old.sid, targetId := old.targetId, finished := false } :: l2 := by
    rw [he]
    exact setAt_append_mid l1 old l2 _
  unfold startHatsDo restartThread
  rw [if_neg hfm2, if_pos hty]
  simp only [hfind, hidx, hset]

theorem startHats_foldl_targetId (ty : HatType) (mf : List (Nat × String)) (c : TargetM)
    (hty : hatRestartExistingThreads ty = false) :
    ∀ (visits : List (ScriptM × TargetM)) (acc : EngineSt × List ThreadM),
      (∀ p ∈ visits, p.2 = c) →
      (∀ th ∈ acc.2, th.targetId = c.tid) →
      ∀ th ∈ (visits.foldl (fun a p => startHatsDo ty mf a p.1 p.2) acc).2, th.targetId = c.tid := by
  intro visits
  induction visits with
  | nil => intro acc _ hinv; exact hinv
  | cons p rest ih =>
    intro acc hv hinv
    have hp : p.2 = c := hv p (by simp)
    have hstep : ∀ th ∈ (startHatsDo ty mf acc p.1 p.2).2, th.targetId = c.tid := by
      rw [hp]
      exact startHatsDo_targetId ty mf c hty acc p.1 hinv
    simp only [List.foldl_cons]
    exact ih (startHatsDo ty mf acc p.1 p.2) (fun q hq => hv q (by simp [hq])) hstep

end LibScratch

namespace LibScratch

/-! Claim theorems: virtual machine. -/

/-- C1 (amended): when VirtualMachine::run dispatches HALT with an empty
procedure call stack, it returns with `atEnd = true`, leaving every other
component of the state — including the register stack — untouched: a
nonzero register count only prints a warning (the result is a normal
return, never a crash), and `regCount` is NOT reset to 0, so `regCount = 0`
holds after the run only if the executed program itself balanced its
register pushes and pops. -/
theorem halt_empty_callstack_atEnd (code : List Nat) (consts : List Value) (s : VMState)
    (pc : Nat) (hop : code[pc]? = some OP_HALT) (hct : s.callTree = []) :
    step code consts s pc = .ret { s with atEnd := true } pc := by
  unfold step
  rw [hop]
  simp [hct]

/-- C1 witness: HALT at index 1 with one leaked register returns normally
with atEnd set and the register still in place. -/
theorem halt_empty_callstack_atEnd_witness :
    step [0, OP_HALT] []
        { regs := [Value.num 3], vars := [], loops := [], callTree := [], atEnd := false, atomic := true } 1
      = .ret { regs := [Value.num 3], vars := [], loops := [], callTree := [], atEnd := true, atomic := true } 1 :=
  halt_empty_callstack_atEnd [0, OP_HALT] []
    { regs := [Value.num 3], vars := [], loops := [], callTree := [], atEnd := false, atomic := true } 1 rfl rfl

/-- C1 counterexample: the program `CONST 5; HALT` (which leaks one
register) finishes a run() with `atEnd = true` but `regCount = 1 ≠ 0`,
refuting the claim that every run reaching HALT with an empty call stack
returns with `regCount = 0`. -/
theorem halt_leaked_registers_counterexample :
    runVM [0, OP_CONST, 0, OP_HALT] [Value.num 5]
        { regs := [], vars := [], loops := [], callTree := [], atEnd := false, atomic := true } 10
      = .done { regs := [Value.num 5], vars := [], loops := [], callTree := [], atEnd := true, atomic := true } 3
    ∧ ({ regs := [Value.num 5], vars := [], loops := [], callTree := [], atEnd := true, atomic := true } : VMState).regs.length ≠ 0 := by
  exact ⟨rfl, by decide⟩

/-- C2 (amended): REPEAT_LOOP pops its count; when the count is ≤ 0 the
interpreter scans forward past the FIRST LOOP_END word (whole instructions
are skipped using the argument-count table, but nesting is NOT tracked, so
with a nested loop in the body this is the nested loop's LOOP_END, not the
matching one) and continues after it without touching the variables; when
the count is n > 0 it pushes Loop{repeat, start = pc, index = 0, max = n};
and the program `REPEAT 5 { CHANGE_VAR v }` with v initially 0 and no
BREAK_ATOMIC finishes a single run() with v = 5 and atEnd. -/
theorem repeat_loop_count_semantics :
    (∀ (code : List Nat) (consts : List Value) (s : VMState) (pc : Nat) (n : Int)
        (rest : List Value) (q : Nat),
      code[pc]? = some OP_REPEAT_LOOP →
      s.regs = Value.num n :: rest →
      n ≤ 0 →
      scanLoopEnd code pc (code.length + 1) = some q →
      step code consts s pc = .next { s with regs := rest } (q + 1))
    ∧ (∀ (code : List Nat) (consts : List Value) (s : VMState) (pc : Nat) (n : Int)
        (rest : List Value),
      code[pc]? = some OP_REPEAT_LOOP →
      s.regs = Value.num n :: rest →
      0 < n →
      step code consts s pc =
        .next { s with regs := rest,
                       loops := { isRepeatLoop := true, start := pc, index := 0, max := n } :: s.loops }
          (pc + 1))
    ∧ runVM [0, OP_CONST, 0, OP_REPEAT_LOOP, OP_CONST, 1, OP_CHANGE_VAR, 0, OP_LOOP_END, OP_HALT]
        [Value.num 5, Value.num 1]
        { regs := [], vars := [Value.num 0], loops := [], callTree := [], atEnd := false, atomic := true } 30
      = .done { regs := [], vars := [Value.num 5], loops := [], callTree := [], atEnd := true, atomic := true } 9 := by
  refine ⟨?_, ?_, ?_⟩
  · intro code consts s pc n rest q hc hr hn hs
    unfold step
    rw [hc, hr]
    simp [OP_HALT, OP_CONST, OP_FOREVER_LOOP, OP_REPEAT_LOOP, valueToLong, hn, hs]
  · intro code consts s pc n rest hc hr hn
    have hn2 : ¬n ≤ 0 := by omega
    unfold step
    rw [hc, hr]
    simp [OP_HALT, OP_CONST, OP_FOREVER_LOOP, OP_REPEAT_LOOP, valueToLong, hn2]
  · rfl

/-- C2 witness: REPEAT at index 1 with count 0 jumps past the LOOP_END at
index 2 (continuing at index 3); with count 2 it pushes the loop record
and continues with the body. -/
theorem repeat_loop_count_semantics_witness :
    step [0, OP_REPEAT_LOOP, OP_LOOP_END, OP_HALT] []
        { regs := [Value.num 0], vars := [], loops := [], callTree := [], atEnd := false, atomic := true } 1
      = .next { regs := [], vars := [], loops := [], callTree := [], atEnd := false, atomic := true } 3
    ∧ step [0, OP_REPEAT_LOOP, OP_LOOP_END, OP_HALT] []
        { regs := [Value.num 2], vars := [], loops := [], callTree := [], atEnd := false, atomic := true } 1
      = .next { regs := [], vars := [],
                loops := [{ isRepeatLoop := true, start := 1, index := 0, max := 2 }],
                callTree := [], atEnd := false, atomic := true } 2 :=
  ⟨repeat_loop_count_semantics.1 [0, OP_REPEAT_LOOP, OP_LOOP_END, OP_HALT] []
      { regs := [Value.num 0], vars := [], loops := [], callTree := [], atEnd := false, atomic := true }
      1 0 [] 2 rfl rfl (by decide) rfl,
   repeat_loop_count_semantics.2.1 [0, OP_REPEAT_LOOP, OP_LOOP_END, OP_HALT] []
      { regs := [Value.num 2], vars := [], loops := [], callTree := [], atEnd := false, atomic := true }
      1 2 [] rfl rfl (by decide)⟩

/-- C2 counterexample: `REPEAT 0 { FOREVER { } ; CHANGE_VAR v }` — the
count-0 scan stops at the nested FOREVER loop's LOOP_END instead of the
matching outer one, so the tail of the body still executes (v goes from 0
to 1) and the outer LOOP_END then underflows the empty loop stack (C++
`m_loops.back()` on an empty vector).  This refutes the claim that a
count ≤ 0 correctly skips over nested loops' LOOP_ENDs without executing
the body. -/
theorem repeat_loop_nested_skip_counterexample :
    runVM [0, OP_CONST, 0, OP_REPEAT_LOOP, OP_FOREVER_LOOP, OP_LOOP_END, OP_CONST, 1,
           OP_CHANGE_VAR, 0, OP_LOOP_END, OP_HALT]
        [Value.num 0, Value.num 1]
        { regs := [], vars := [Value.num 0], loops := [], callTree := [], atEnd := false, atomic := true } 30
      = .failed { regs := [], vars := [Value.num 1], loops := [], callTree := [], atEnd := false, atomic := true } := by
  rfl

/-- C7 (amended): the TAN opcode computes `toLong(v) % 360` with the C++
remainder, which truncates toward zero, and compares the result against
exactly 90 and 270.  Hence +∞ for the nonnegative angles congruent to 90
(mod 360) and −∞ for the nonnegative angles congruent to 270, but NOT for
negative angles: a negative operand yields a nonpositive remainder, which
never equals 90 or 270, so e.g. TAN(−90) falls through to the finite
std::tan branch instead of −∞. -/
theorem tan_pm_infinity_semantics :
    (∀ n : Int, 0 ≤ n → n % 360 = 90 → tanOpcode n = .plusInf)
    ∧ (∀ n : Int, 0 ≤ n → n % 360 = 270 → tanOpcode n = .minusInf)
    ∧ (∀ n : Int, (tanOpcode n = .plusInf ↔ n.tmod 360 = 90)
        ∧ (tanOpcode n = .minusInf ↔ n.tmod 360 = 270)) := by
  refine ⟨?_, ?_, ?_⟩
  · intro n h0 hm
    have ht : Int.tmod n 360 = n % 360 := Int.tmod_eq_emod h0 (by norm_num)
    simp [tanOpcode, ht, hm]
  · intro n h0 hm
    have ht : Int.tmod n 360 = n % 360 := Int.tmod_eq_emod h0 (by norm_num)
    simp [tanOpcode, ht, hm]
  · intro n
    constructor
    · simp only [tanOpcode]
      split_ifs with h1 h2 <;> simp_all
    · simp only [tanOpcode]
      split_ifs with h1 h2 <;> simp_all

/-- C7 witness: 450 ≡ 90 (mod 360) gives +∞ and 630 ≡ 270 (mod 360)
gives −∞. -/
theorem tan_pm_infinity_semantics_witness :
    tanOpcode 450 = .plusInf ∧ tanOpcode 630 = .minusInf :=
  ⟨tan_pm_infinity_semantics.1 450 (by decide) (by decide),
   tan_pm_infinity_semantics.2.1 630 (by decide) (by decide)⟩

/-- C7 counterexample: −90 is congruent to 270 modulo 360 and −270 to 90,
yet TAN returns the finite std::tan value for both (the C++ `%` yields
−90 and −270, matching neither 90 nor 270), refuting the claim that the
±∞ cases cover negative operands. -/
theorem tan_negative_angle_counterexample :
    tanOpcode (-90) = .finiteTan (-90) ∧ (-90 : Int) % 360 = 270
    ∧ tanOpcode (-270) = .finiteTan (-270) ∧ (-270 : Int) % 360 = 90
    ∧ TanResult.finiteTan (-90) ≠ TanResult.minusInf := by
  refine ⟨by decide, by decide, by decide, by decide, by decide⟩

/-- C10 (confirmed): the ATAN opcode replaces its operand with NaN exactly
when the operand is strictly below −1 or strictly above 1, although the
mathematical arctangent is total; operands inside [−1, 1] get the finite
`std::atan(v)·180/π` result. -/
theorem atan_domain_nan (q : ℚ) :
    (q < -1 ∨ 1 < q → atanOpcode q = .nanRes)
    ∧ (-1 ≤ q → q ≤ 1 → atanOpcode q = .finiteDeg q) := by
  constructor
  · intro h
    unfold atanOpcode
    rw [if_pos h]
  · intro h1 h2
    have hn : ¬(q < -1 ∨ q > 1) := by
      push_neg
      exact ⟨by linarith, by linarith⟩
    unfold atanOpcode
    rw [if_neg hn]

/-- C10 witness: ATAN(2) is NaN while ATAN(1/2) is the finite arctangent
in degrees. -/
theorem atan_domain_nan_witness :
    atanOpcode 2 = .nanRes ∧ atanOpcode (1 / 2) = .finiteDeg (1 / 2) :=
  ⟨(atan_domain_nan 2).1 (by norm_num), (atan_domain_nan (1 / 2)).2 (by norm_num) (by norm_num)⟩

end LibScratch

namespace LibScratch

/-! Claim theorems: engine. -/

/-- C3 (amended): startHats visits the executable targets in reverse array
order and each target's scripts in registration order (the `visitOrder`
list); when no visited (target, script) pair has an existing thread, every
visit appends one fresh thread, so the new threads sit at the tail of the
thread list in exactly the visit order.  (When restart=yes replaces
existing threads, replacements stay in the replaced threads' slots, which
need not follow the visit order — see the counterexample.) -/
theorem startHats_visit_order_append (h : HatIndex) (e : EngineSt) (ty : HatType)
    (mf : List (Nat × String)) (ot : Option TargetM)
    (hf : ∀ p ∈ visitOrder h e ty ot, fieldsMatch p.1 mf = true)
    (hn : ∀ p ∈ visitOrder h e ty ot, findMatch e.threads p.2.tid p.1.sid = none)
    (hd : ((visitOrder h e ty ot).map visitSig).Nodup) :
    (startHats h e ty mf ot).1.threads = e.threads ++ (startHats h e ty mf ot).2
    ∧ ((startHats h e ty mf ot).2).map threadSig = (visitOrder h e ty ot).map visitSig := by
  obtain ⟨nws, heq, hmap⟩ := startHats_foldl_append ty mf (visitOrder h e ty ot) e [] hf hn hd
  unfold startHats
  rw [heq]
  constructor
  · simp
  · simpa using hmap

/-- C3 witness: a green-flag dispatch over [stage, sprA, sprB] with no
pre-existing threads appends the new threads in visit order. -/
theorem startHats_visit_order_append_witness :
    (startHats hatsGF engGF .greenFlag [] none).1.threads
        = engGF.threads ++ (startHats hatsGF engGF .greenFlag [] none).2
    ∧ ((startHats hatsGF engGF .greenFlag [] none).2).map threadSig
        = (visitOrder hatsGF engGF .greenFlag none).map visitSig :=
  startHats_visit_order_append hatsGF engGF .greenFlag [] none (by decide) (by decide) (by decide)

/-- C3 counterexample: the visit order is (scrB, sprB) then (scrA, sprA),
and both scripts have running threads, but the pre-existing thread for
sprA sits BEFORE the one for sprB; the restarted replacements stay in
those slots, so the thread list holds the thread created second (id 101)
before the thread created first (id 100) — the threads startHats creates
do not appear in the thread list in visit order. -/
theorem startHats_restart_slot_order_counterexample :
    visitOrder hatsGF engPre .greenFlag none = [(scrB, sprB), (scrA, sprA)]
    ∧ (startHats hatsGF engPre .greenFlag [] none).2
        = [{ threadId := 100, sid := 20, targetId := 2, finished := false },
           { threadId := 101, sid := 10, targetId := 1, finished := false }]
    ∧ (startHats hatsGF engPre .greenFlag [] none).1.threads
        = [{ threadId := 101, sid := 10, targetId := 1, finished := false },
           { threadId := 100, sid := 20, targetId := 2, finished := false }] := by
  refine ⟨by decide, by decide, by decide⟩

/-- C4 (confirmed): restart=yes hat types (GreenFlag, BroadcastReceived,
BackdropChanged) replace an existing (target, script) thread in its own
slot of the thread list with a fresh thread (the old thread is dropped
from the list); restart=no hat types (CloneInit, KeyPressed) skip a script
with a non-finished thread.  Consequently two green-flag dispatches with
no intervening execution yield the same thread count, and a second
CloneInit dispatch for the same clone leaves the first call's threads
untouched and creates none. -/
theorem hat_restart_policy :
    (∀ (ty : HatType) (mf : List (Nat × String)) (s : ScriptM) (t : TargetM) (e : EngineSt)
        (acc : List ThreadM) (l1 l2 : List ThreadM) (old : ThreadM),
      hatRestartExistingThreads ty = true →
      fieldsMatch s mf = true →
      e.threads = l1 ++ old :: l2 →
      old.targetId = t.tid → old.sid = s.sid →
      (∀ th ∈ l1, ¬(th.targetId = t.tid ∧ th.sid = s.sid)) →
      (∀ th ∈ l1, th.threadId ≠ old.threadId) →
      startHatsDo ty mf (e, acc) s t =
        ({ e with
            threads := l1 ++ { threadId := e.nextThreadId, sid := old.sid, targetId := old.targetId, finished := false } :: l2,
            nextThreadId := e.nextThreadId + 1 },
         acc ++ [{ threadId := e.nextThreadId, sid := old.sid, targetId := old.targetId, finished := false }]))
    ∧ (∀ (ty : HatType) (mf : List (Nat × String)) (s : ScriptM) (t : TargetM) (e : EngineSt)
        (acc : List ThreadM) (l1 l2 : List ThreadM) (old : ThreadM),
      hatRestartExistingThreads ty = true →
      fieldsMatch s mf = true →
      e.threads = l1 ++ old :: l2 →
      old.targetId = t.tid → old.sid = s.sid →
      (∀ th ∈ l1, ¬(th.targetId = t.tid ∧ th.sid = s.sid)) →
      (∀ th ∈ l1 ++ l2, th.threadId ≠ old.threadId) →
      old.threadId ≠ e.nextThreadId →
      old ∉ (startHatsDo ty mf (e, acc) s t).1.threads)
    ∧ (∀ (ty : HatType) (mf : List (Nat × String)) (s : ScriptM) (t : TargetM) (e : EngineSt)
        (acc : List ThreadM),
      hatRestartExistingThreads ty = false →
      anyUnfinishedMatch e.threads t.tid s.sid = true →
      startHatsDo ty mf (e, acc) s t = (e, acc))
    ∧ ((startHats hatsGF engGF .greenFlag [] none).1.threads.length = 2
        ∧ (startHats hatsGF (startHats hatsGF engGF .greenFlag [] none).1 .greenFlag [] none).1.threads.length = 2
        ∧ (startHats hatsGF (startHats hatsGF engGF .greenFlag [] none).1 .greenFlag [] none).1.threads
            = [{ threadId := 2, sid := 20, targetId := 2, finished := false },
               { threadId := 3, sid := 10, targetId := 1, finished := false }])
    ∧ startHats hatsCI (startHats hatsCI engClone .cloneInit [] (some cloneA)).1 .cloneInit [] (some cloneA)
        = ((startHats hatsCI engClone .cloneInit [] (some cloneA)).1, []) := by
  refine ⟨?_, ?_, ?_, ?_, ?_⟩
  · intro ty mf s t e acc l1 l2 old hty hfm he hot hos hl1 hid
    exact startHatsDo_restart_slot ty mf s t e acc l1 l2 old hty hfm he hot hos hl1 hid
  · intro ty mf s t e acc l1 l2 old hty hfm he hot hos hl1 hid hfresh
    have hid1 : ∀ th ∈ l1, th.threadId ≠ old.threadId := fun th ht => hid th (by simp [ht])
    have hid2 : ∀ th ∈ l2, th.threadId ≠ old.threadId := fun th ht => hid th (by simp [ht])
    rw [startHatsDo_restart_slot ty mf s t e acc l1 l2 old hty hfm he hot hos hl1 hid1]
    intro hmem
    simp only [List.mem_append, List.mem_cons] at hmem
    rcases hmem with hm | hm | hm
    · exact hid1 old hm rfl
    · have : old.threadId = e.nextThreadId := by rw [hm]
      exact hfresh this
    · exact hid2 old hm rfl
  · intro ty mf s t e acc hty hb
    unfold startHatsDo
    by_cases hfm : fieldsMatch s mf = false
    · rw [if_pos hfm]
    · rw [if_neg hfm, if_neg (by simp [hty] : ¬hatRestartExistingThreads ty = true), if_pos hb]
  · refine ⟨by decide, by decide, by decide⟩
  · decide

/-- C4 witness: the restart branch replaces the thread for (sprB, scrB)
in slot 1 of a two-thread list, and the skip branch leaves the engine
untouched when an unfinished matching thread exists. -/
theorem hat_restart_policy_witness :
    startHatsDo .greenFlag [] (engPre, []) scrB sprB =
      ({ engPre with
          threads := [{ threadId := 50, sid := 10, targetId := 1, finished := false },
                      { threadId := 100, sid := 20, targetId := 2, finished := false }],
          nextThreadId := 101 },
       [{ threadId := 100, sid := 20, targetId := 2, finished := false }])
    ∧ ({ threadId := 51, sid := 20, targetId := 2, finished := false } : ThreadM)
        ∉ (startHatsDo .greenFlag [] (engPre, []) scrB sprB).1.threads
    ∧ startHatsDo .keyPressed [] (engPre, []) scrA sprA = (engPre, []) :=
  ⟨hat_restart_policy.1 .greenFlag [] scrB sprB engPre []
      [{ threadId := 50, sid := 10, targetId := 1, finished := false }] []
      { threadId := 51, sid := 20, targetId := 2, finished := false }
      rfl rfl rfl rfl rfl (by decide) (by decide),
   hat_restart_policy.2.1 .greenFlag [] scrB sprB engPre []
      [{ threadId := 50, sid := 10, targetId := 1, finished := false }] []
      { threadId := 51, sid := 20, targetId := 2, finished := false }
      rfl rfl rfl rfl rfl (by decide) (by decide) (by decide),
   hat_restart_policy.2.2.1 .keyPressed [] scrA sprA engPre [] rfl (by decide)⟩

/-- C5 (amended): initClone preserves the invariant cloneCount ≤ cloneLimit
(for cloneLimit ≥ 0) and is a silent no-op when the count has reached the
limit, so with cloneLimit = 2 three successive initClone calls on distinct
valid clones leave exactly 2 clones; the invariant is NOT maintained by
every engine operation, because setCloneLimit can lower the limit below
the current count (see the counterexample). -/
theorem clone_limit_initClone :
    (∀ (h : HatIndex) (e : EngineSt) (c : Option TargetM),
      0 ≤ e.cloneLimit →
      (e.clones.length : Int) ≤ e.cloneLimit →
      ((initClone h e c).clones.length : Int) ≤ (initClone h e c).cloneLimit)
    ∧ (∀ (h : HatIndex) (e : EngineSt) (c : TargetM),
      0 ≤ e.cloneLimit →
      e.cloneLimit ≤ (e.clones.length : Int) →
      initClone h e (some c) = e)
    ∧ (initClone hatsCI (initClone hatsCI (initClone hatsCI engClone2 (some cloneA)) (some cloneB)) (some cloneC)).clones = [5, 6]
    ∧ initClone hatsCI (initClone hatsCI (initClone hatsCI engClone2 (some cloneA)) (some cloneB)) (some cloneC)
        = initClone hatsCI (initClone hatsCI engClone2 (some cloneA)) (some cloneB) := by
  refine ⟨?_, ?_, by decide, by decide⟩
  · intro h e c h0 hle
    cases c with
    | none => simpa [initClone] using hle
    | some c =>
      simp only [initClone]
      by_cases hrej : 0 ≤ e.cloneLimit ∧ e.cloneLimit ≤ (e.clones.length : Int)
      · rw [if_pos hrej]
        exact hle
      · rw [if_neg hrej]
        have hlt : (e.clones.length : Int) < e.cloneLimit := by
          have hnc : ¬e.cloneLimit ≤ (e.clones.length : Int) := fun hc => hrej ⟨h0, hc⟩
          omega
        cases hr : c.cloneRoot with
        | none => exact hle
        | some r =>
          have hfr := startHats_frame h e .cloneInit [] (some c)
          simp only [List.length_append, List.length_cons, List.length_nil, hfr.1, hfr.2.2.1]
          push_cast
          omega
  · intro h e c h0 hge
    simp only [initClone]
    rw [if_pos (And.intro h0 hge)]

/-- C5 witness: with cloneLimit 2 and no clones, initClone keeps the
invariant; with the limit already reached, initClone is the identity. -/
theorem clone_limit_initClone_witness :
    ((initClone hatsCI engClone2 (some cloneA)).clones.length : Int)
        ≤ (initClone hatsCI engClone2 (some cloneA)).cloneLimit
    ∧ initClone hatsCI
        { executableTargets := [stage0, sprA], threads := [], clones := [5, 6], cloneLimit := 2,
          keyMap := [], nextThreadId := 0 } (some cloneC)
      = { executableTargets := [stage0, sprA], threads := [], clones := [5, 6], cloneLimit := 2,
          keyMap := [], nextThreadId := 0 } :=
  ⟨clone_limit_initClone.1 hatsCI engClone2 (some cloneA) (by decide) (by decide),
   clone_limit_initClone.2.1 hatsCI
      { executableTargets := [stage0, sprA], threads := [], clones := [5, 6], cloneLimit := 2,
        keyMap := [], nextThreadId := 0 } cloneC (by decide) (by decide)⟩

/-- C5 counterexample: with 3 clones alive under limit 300, the engine
operation setCloneLimit(2) leaves cloneCount = 3 > cloneLimit = 2, so the
invariant cloneCount ≤ cloneLimit (cloneLimit ≥ 0) does not hold after
every engine operation. -/
theorem clone_limit_setCloneLimit_counterexample :
    0 ≤ (setCloneLimit
        { executableTargets := [stage0, sprA], threads := [], clones := [5, 6, 7], cloneLimit := 300,
          keyMap := [], nextThreadId := 0 } 2).cloneLimit
    ∧ ¬(((setCloneLimit
        { executableTargets := [stage0, sprA], threads := [], clones := [5, 6, 7], cloneLimit := 300,
          keyMap := [], nextThreadId := 0 } 2).clones.length : Int)
      ≤ (setCloneLimit
        { executableTargets := [stage0, sprA], threads := [], clones := [5, 6, 7], cloneLimit := 300,
          keyMap := [], nextThreadId := 0 } 2).cloneLimit) := by
  refine ⟨by decide, by decide⟩

/-- C6 (amended): for an accepted clone, initClone FIRST fires the
CloneInit hats — looked up on the clone's root sprite but targeted at the
clone itself — and only AFTERWARDS adds the clone to the clone set and
appends it to the executable targets; startHats leaves both containers
unchanged, so the clone is NOT yet present in either at the moment its
CloneInit threads are created. -/
theorem initClone_order :
    (∀ (h : HatIndex) (e : EngineSt) (c : TargetM) (r : Nat),
      c.cloneRoot = some r →
      ¬(0 ≤ e.cloneLimit ∧ e.cloneLimit ≤ (e.clones.length : Int)) →
      initClone h e (some c) =
        { (startHats h e .cloneInit [] (some c)).1 with
            clones := (startHats h e .cloneInit [] (some c)).1.clones ++ [c.tid],
            executableTargets := (startHats h e .cloneInit [] (some c)).1.executableTargets ++ [c] })
    ∧ (∀ (h : HatIndex) (e : EngineSt) (c : TargetM),
      (startHats h e .cloneInit [] (some c)).1.clones = e.clones
      ∧ (startHats h e .cloneInit [] (some c)).1.executableTargets = e.executableTargets)
    ∧ (∀ (h : HatIndex) (c : TargetM) (r : Nat),
      c.isStage = false → c.cloneRoot = some r →
      getHats h c .cloneInit = lookupHats h.cloneInitHats r)
    ∧ (∀ (h : HatIndex) (e : EngineSt) (c : TargetM) (mf : List (Nat × String)),
      ∀ th ∈ (startHats h e .cloneInit mf (some c)).2, th.targetId = c.tid) := by
  refine ⟨?_, ?_, ?_, ?_⟩
  · intro h e c r hr hrej
    simp only [initClone]
    rw [if_neg hrej]
    simp only [hr]
  · intro h e c
    have hfr := startHats_frame h e .cloneInit [] (some c)
    exact ⟨hfr.1, hfr.2.1⟩
  · intro h c r hsg hr
    simp [getHats, hsg, hr, hatsOf]
  · intro h e c mf
    apply startHats_foldl_targetId .cloneInit mf c rfl (visitOrder h e .cloneInit (some c)) (e, [])
    · intro p hp
      simp only [visitOrder, visitTargets, List.flatMap_cons, List.flatMap_nil, List.append_nil] at hp
      rcases List.mem_map.mp hp with ⟨s, _, hs⟩
      rw [← hs]
    · intro th ht
      simp at ht

/-- C6 witness: the decomposition, root lookup and clone targeting at the
concrete clone fixture. -/
theorem initClone_order_witness :
    initClone hatsCI engClone (some cloneA) =
      { (startHats hatsCI engClone .cloneInit [] (some cloneA)).1 with
          clones := (startHats hatsCI engClone .cloneInit [] (some cloneA)).1.clones ++ [cloneA.tid],
          executableTargets := (startHats hatsCI engClone .cloneInit [] (some cloneA)).1.executableTargets ++ [cloneA] }
    ∧ getHats hatsCI cloneA .cloneInit = lookupHats hatsCI.cloneInitHats 1
    ∧ ∀ th ∈ (startHats hatsCI engClone .cloneInit [] (some cloneA)).2, th.targetId = cloneA.tid :=
  ⟨initClone_order.1 hatsCI engClone cloneA 1 rfl (by decide),
   initClone_order.2.2.1 hatsCI cloneA 1 rfl rfl,
   initClone_order.2.2.2 hatsCI engClone cloneA []⟩

/-- C6 counterexample: firing the CloneInit hats during initClone creates
the clone's thread while the clone set and executable targets still have
their pre-call contents (the clone absent) — refuting the claim that the
clone is added before the hats fire. -/
theorem initClone_hats_before_insert_counterexample :
    (startHats hatsCI engClone .cloneInit [] (some cloneA)).2
      = [{ threadId := 0, sid := 30, targetId := 5, finished := false }]
    ∧ (startHats hatsCI engClone .cloneInit [] (some cloneA)).1.clones = []
    ∧ (startHats hatsCI engClone .cloneInit [] (some cloneA)).1.executableTargets = [stage0, sprA]
    ∧ (initClone hatsCI engClone (some cloneA)).clones = [5]
    ∧ (initClone hatsCI engClone (some cloneA)).executableTargets = [stage0, sprA, cloneA] := by
  refine ⟨by decide, by decide, by decide, by decide, by decide⟩

/-- C8 (amended): setKeyState(k, true) unconditionally records the key as
pressed and starts the KeyPressed hats for k and for "any" — there is no
edge detection on the stored key state.  Duplicate presses start no new
threads only while every matching script still has a non-finished thread
(the restart=no skip); once that thread finishes, a repeated press with
the key still recorded as pressed starts a fresh thread. -/
theorem setKeyState_semantics :
    (∀ (h : HatIndex) (e : EngineSt) (k : String),
      setKeyState h e k true =
        (startHats h
          (startHats h { e with keyMap := setKeyMap e.keyMap k true }
            .keyPressed [(keyOptionField, k)] none).1
          .keyPressed [(keyOptionField, "any")] none).1)
    ∧ (setKeyState hatsKey engKey "a" true).threads
        = [{ threadId := 0, sid := 40, targetId := 1, finished := false }]
    ∧ (setKeyState hatsKey engKey "a" true).keyMap = [("a", true)]
    ∧ setKeyState hatsKey (setKeyState hatsKey engKey "a" true) "a" true
        = setKeyState hatsKey engKey "a" true
    ∧ (setKeyState hatsKey engKeyPressed "a" true).threads
        = [{ threadId := 0, sid := 40, targetId := 1, finished := true },
           { threadId := 1, sid := 40, targetId := 1, finished := false }] := by
  refine ⟨?_, by decide, by decide, by decide, by decide⟩
  intro h e k
  rfl

/-- C8 counterexample: with key "a" already recorded pressed and its
earlier KeyPressed thread finished, calling setKeyState("a", true) again
starts a new thread — hats do not fire only on the not-pressed → pressed
transition. -/
theorem setKeyState_no_edge_detection_counterexample :
    engKeyPressed.keyMap = [("a", true)]
    ∧ engKeyPressed.threads.length = 1
    ∧ (setKeyState hatsKey engKeyPressed "a" true).threads.length = 2 := by
  refine ⟨by decide, by decide, by decide⟩

end LibScratch

namespace LibScratch

/-- C9 (amended): when the executable-targets array holds the stage at
index 0 and at least two sprites, the sequence moveToFront(s);
moveToBack(s); moveToFront(s) ends with s as the LAST entry of the array
(the front layer, immediately before the array's end), the stage stays at
index 0, and after each of the three mutations every entry from index 1 up
carries its array index as layerOrder.  (With only one sprite all three
calls are guarded no-ops — size ≤ 2 — so stale layerOrder values are left
unrepaired; see the counterexample.) -/
theorem layering_front_back_front (e : EngineSt) (t0 s : TargetM) (l1 l2 : List TargetM)
    (he : e.executableTargets = t0 :: l1 ++ s :: l2)
    (hstage : t0.isStage = true) (hsprite : s.isStage = false)
    (h0 : t0.tid ≠ s.tid)
    (h1 : ∀ t ∈ l1, t.tid ≠ s.tid)
    (h2 : ∀ t ∈ l2, t.tid ≠ s.tid)
    (hlen : 3 ≤ e.executableTargets.length) :
    Option.map (fun t => t.tid)
        (moveSpriteToFront (moveSpriteToBack (moveSpriteToFront e s) s) s).executableTargets.getLast?
      = some s.tid
    ∧ layersOk (moveSpriteToFront e s).executableTargets = true
    ∧ layersOk (moveSpriteToBack (moveSpriteToFront e s) s).executableTargets = true
    ∧ layersOk (moveSpriteToFront (moveSpriteToBack (moveSpriteToFront e s) s) s).executableTargets = true
    ∧ (moveSpriteToFront e s).executableTargets.head? = some t0
    ∧ (moveSpriteToBack (moveSpriteToFront e s) s).executableTargets.head? = some t0
    ∧ (moveSpriteToFront (moveSpriteToBack (moveSpriteToFront e s) s) s).executableTargets.head? = some t0 := by
  have hsum : 1 ≤ l1.length + l2.length := by
    rw [he] at hlen
    simp at hlen
    omega
  have he1 := moveSpriteToFront_shape e t0 l1 l2 s s he rfl h0 h1 hlen
  have hA1exec :
      updateLayersFrom 0 (t0 :: (l1 ++ l2 ++ [s]))
        = t0 :: (updateLayersFrom 1 (l1 ++ l2)
            ++ [{ s with layerOrder := 1 + (l1 ++ l2).length }]) := by
    rw [updateLayersFrom_cons_zero,
      updateLayersFrom_append (l1 ++ l2) [s] 1,
      updateLayersFrom_singleton s (1 + (l1 ++ l2).length) (by omega)]
  have hA1 :
      (moveSpriteToFront e s).executableTargets
        = t0 :: (updateLayersFrom 1 (l1 ++ l2)
            ++ [{ s with layerOrder := 1 + (l1 ++ l2).length }]) := by
    rw [he1]
    exact hA1exec
  have hPlen : (updateLayersFrom 1 (l1 ++ l2)).length = l1.length + l2.length := by
    rw [updateLayersFrom_length]
    simp
  have hlen1 : 3 ≤ (moveSpriteToFront e s).executableTargets.length := by
    rw [hA1]
    simp [hPlen]
    omega
  have hP_ne : ∀ t ∈ updateLayersFrom 1 (l1 ++ l2), t.tid ≠ s.tid := by
    apply updateLayersFrom_tid_ne
    intro t ht
    rcases List.mem_append.mp ht with hm | hm
    · exact h1 t hm
    · exact h2 t hm
  have he2 :=
    moveSpriteToBack_shape (moveSpriteToFront e s) t0 (updateLayersFrom 1 (l1 ++ l2)) []
      { s with layerOrder := 1 + (l1 ++ l2).length } s hA1 rfl h0 hP_ne hlen1
  have hA2exec :
      updateLayersFrom 0 (t0 :: { s with layerOrder := 1 + (l1 ++ l2).length }
          :: (updateLayersFrom 1 (l1 ++ l2) ++ []))
        = t0 :: { s with layerOrder := 1 }
            :: updateLayersFrom 2 (updateLayersFrom 1 (l1 ++ l2)) := by
    rw [List.append_nil, updateLayersFrom_cons_zero,
      updateLayersFrom_cons_pos _ _ 1 (by omega)]
  have hA2 :
      (moveSpriteToBack (moveSpriteToFront e s) s).executableTargets
        = t0 :: { s with layerOrder := 1 }
            :: updateLayersFrom 2 (updateLayersFrom 1 (l1 ++ l2)) := by
    rw [he2]
    exact hA2exec
  have hQlen : (updateLayersFrom 2 (updateLayersFrom 1 (l1 ++ l2))).length = l1.length + l2.length := by
    rw [updateLayersFrom_length, updateLayersFrom_length]
    simp
  have hlen2 : 3 ≤ (moveSpriteToBack (moveSpriteToFront e s) s).executableTargets.length := by
    rw [hA2]
    simp [hQlen]
    omega
  have he3 :=
    moveSpriteToFront_shape (moveSpriteToBack (moveSpriteToFront e s) s) t0 []
      (updateLayersFrom 2 (updateLayersFrom 1 (l1 ++ l2)))
      { s with layerOrder := 1 } s hA2 rfl h0 (by intro t ht; simp at ht) hlen2
  have hA3exec :
      updateLayersFrom 0 (t0 :: ([] ++ updateLayersFrom 2 (updateLayersFrom 1 (l1 ++ l2))
          ++ [{ s with layerOrder := 1 }]))
        = t0 :: (updateLayersFrom 1 (updateLayersFrom 2 (updateLayersFrom 1 (l1 ++ l2)))
            ++ [{ s with layerOrder :=
                  1 + (updateLayersFrom 2 (updateLayersFrom 1 (l1 ++ l2))).length }]) := by
    rw [List.nil_append, updateLayersFrom_cons_zero,
      updateLayersFrom_append (updateLayersFrom 2 (updateLayersFrom 1 (l1 ++ l2)))
        [{ s with layerOrder := 1 }] 1,
      updateLayersFrom_singleton _ _ (by omega)]
  have hA3 :
      (moveSpriteToFront (moveSpriteToBack (moveSpriteToFront e s) s) s).executableTargets
        = t0 :: (updateLayersFrom 1 (updateLayersFrom 2 (updateLayersFrom 1 (l1 ++ l2)))
            ++ [{ s with layerOrder :=
                  1 + (updateLayersFrom 2 (updateLayersFrom 1 (l1 ++ l2))).length }]) := by
    rw [he3]
    exact hA3exec
  refine ⟨?_, ?_, ?_, ?_, ?_, ?_, ?_⟩
  · rw [hA3]
    rw [show
        t0 :: (updateLayersFrom 1 (updateLayersFrom 2 (updateLayersFrom 1 (l1 ++ l2)))
            ++ [{ s with layerOrder :=
                  1 + (updateLayersFrom 2 (updateLayersFrom 1 (l1 ++ l2))).length }])
          = (t0 :: updateLayersFrom 1 (updateLayersFrom 2 (updateLayersFrom 1 (l1 ++ l2))))
            ++ [{ s with layerOrder :=
                  1 + (updateLayersFrom 2 (updateLayersFrom 1 (l1 ++ l2))).length }]
        from by simp]
    rw [List.getLast?_concat]
    rfl
  · rw [he1]
    exact layersOkFrom_updateLayersFrom _ 0
  · rw [he2]
    exact layersOkFrom_updateLayersFrom _ 0
  · rw [he3]
    exact layersOkFrom_updateLayersFrom _ 0
  · rw [hA1]
    rfl
  · rw [hA2]
    rfl
  · rw [hA3]
    rfl

/-- C9 witness: stage plus two sprites, moving sprA front, back, front
leaves sprA last with consistent layer orders throughout. -/
theorem layering_front_back_front_witness :
    Option.map (fun t => t.tid)
        (moveSpriteToFront (moveSpriteToBack (moveSpriteToFront engGF sprA) sprA) sprA).executableTargets.getLast?
      = some sprA.tid
    ∧ layersOk (moveSpriteToFront engGF sprA).executableTargets = true
    ∧ layersOk (moveSpriteToBack (moveSpriteToFront engGF sprA) sprA).executableTargets = true
    ∧ layersOk (moveSpriteToFront (moveSpriteToBack (moveSpriteToFront engGF sprA) sprA) sprA).executableTargets = true
    ∧ (moveSpriteToFront engGF sprA).executableTargets.head? = some stage0
    ∧ (moveSpriteToBack (moveSpriteToFront engGF sprA) sprA).executableTargets.head? = some stage0
    ∧ (moveSpriteToFront (moveSpriteToBack (moveSpriteToFront engGF sprA) sprA) sprA).executableTargets.head? = some stage0 :=
  layering_front_back_front engGF stage0 sprA [] [sprB] rfl rfl rfl
    (by decide) (by decide) (by decide) (by decide)

/-- C9 counterexample: with only the stage and one sprite whose stored
layerOrder is stale (5 at index 1), all three moves are size-guarded
no-ops, so after the mutations the layerOrder ≠ index — the claim's
layer-consistency clause fails even though the sprite is trivially last. -/
theorem layering_two_entry_noop_counterexample :
    moveSpriteToFront engTwo spriteStale = engTwo
    ∧ moveSpriteToFront (moveSpriteToBack (moveSpriteToFront engTwo spriteStale) spriteStale) spriteStale
        = engTwo
    ∧ layersOk engTwo.executableTargets = false := by
  refine ⟨by decide, by decide, by decide⟩

end LibScratch
